import Mathlib

/-!
Verification development for the marketplace scrape-with-fallback plugin.

The embedding covers, from the plugin sources:
- the numeric-extraction rule applied to price and floor-price text
  (regex `\d+(?:\.\d+)?` followed by `parseFloat`, modelled exactly over ℚ);
- `processListings`, the per-listing normalization with its per-listing
  try/catch (fallible normalization is modelled with `Except`);
- the `crawlVisionAction` handler: the connectivity probe
  (`testFirecrawlConnection`), the sequential fallback loop over the
  hardcoded `marketplaces` list, and the structured outcomes;
- the `ensApiAction` handler's domain-name extraction
  (regex `([a-zA-Z0-9-]+\.eth)`, first match, lowercased).

Network responses and the current time are explicit parameters: the
network is a function from a marketplace target to that target's single
scrape outcome, and `now` stands for `new Date().toISOString()` at the
moment of the call.  JavaScript string values that may have a wrong
dynamic type are modelled by `JField`; calling `.match` on a value that
is neither a string nor nullish throws, which the embedding represents
as `Except.error`.
-/

/-- Numeric value of a list of decimal digit characters, most significant
first (the usual left fold `10 * acc + digit`). -/
def digitsVal (l : List Char) : Nat :=
  l.foldl (fun a c => 10 * a + (c.toNat - 48)) 0

/-- Exact rational value of the decimal numeral whose integer-part digits
are `ip` and fractional-part digits are `fp` (what `parseFloat` returns on
the matched token, modelled exactly). -/
def decToRat (ip fp : List Char) : ℚ :=
  match fp with
  | [] => (digitsVal ip : ℚ)
  | _ => (digitsVal ip : ℚ) + (digitsVal fp : ℚ) / (10 : ℚ) ^ fp.length

/-- First match of the regex `\d+(?:\.\d+)?` in a character list: scans for
the first digit, takes the maximal digit run, and takes a fractional part
only when a dot followed by at least one digit comes right after.  Returns
the integer-part and fractional-part digit lists. -/
def firstDecimalMatch : List Char → Option (List Char × List Char)
  | [] => none
  | c :: rest =>
    if c.isDigit then
      some (List.takeWhile Char.isDigit (c :: rest),
        match List.dropWhile Char.isDigit (c :: rest) with
        | '.' :: r2 => List.takeWhile Char.isDigit r2
        | _ => [])
    else firstDecimalMatch rest

/-- Numeric-extraction rule used identically on the price and floor-price
fields: `text?.match(/(\d+(?:\.\d+)?)/)` followed by `parseFloat` on the
captured group; `none` when the input is undefined or has no numeral. -/
def extractLeadingDecimal : Option String → Option ℚ
  | none => none
  | some s => (firstDecimalMatch s.data).map (fun p => decToRat p.1 p.2)

/-- Value of a loosely-typed JavaScript field: a string, `undefined`, or a
value of some other non-nullish type (on which calling `.match` throws). -/
inductive JField where
  | jstr (s : String)
  | jundef
  | jbad
deriving DecidableEq

/-- Raw listing as returned by the scrape call (`VisionListing`): free-form
price and floor-price text, optional listing date, open metadata mapping. -/
structure RawListing where
  domainName : String
  price : JField
  floorPrice : JField
  listedAt : Option String
  metadata : List (String × String)
deriving DecidableEq

/-- Normalized listing produced by `processListings` for one raw listing. -/
structure NormalizedListing where
  domainName : String
  price : ℚ
  floorPrice : Option ℚ
  isBelowFloor : Bool
  listedAt : String
  metadata : List (String × String)
deriving DecidableEq

/-- JavaScript object update `{...m, k: v}` on an ordered key-value record:
replaces the first occurrence of `k` in place, or appends `(k, v)`. -/
def jsSetKey : List (String × String) → String → String → List (String × String)
  | [], k, v => [(k, v)]
  | (k', v') :: rest, k, v =>
    if k' = k then (k, v) :: rest else (k', v') :: jsSetKey rest k v

/-- Behaviour of `field?.match(/(\d+(?:\.\d+)?)/)` then `parseFloat` on a
loosely-typed field: a string is searched, `undefined` short-circuits to
no match, and any other value throws a `TypeError`. -/
def matchField : JField → Except String (Option ℚ)
  | .jstr s => .ok (extractLeadingDecimal (some s))
  | .jundef => .ok none
  | .jbad => .error "TypeError: value has no method match"

/-- Spec-level extraction on a raw field: the parsed numeral when the field
is a string containing one, `none` otherwise. -/
def extractField : JField → Option ℚ
  | .jstr s => extractLeadingDecimal (some s)
  | _ => none

/-- Normalization of one raw listing (the body of the per-listing `try` in
`processListings`): price defaults to 0 when no numeral is extractable,
floor price stays `none`, `isBelowFloor` follows the JavaScript truthiness
test `floorPrice ? price < floorPrice : false` (so a floor price of 0 is
falsy), `listedAt` falls back to the scrape time when missing or empty,
and the metadata mapping gets a `scrapedAt` entry. -/
def normalizeOne (now : String) (l : RawListing) : Except String NormalizedListing :=
  match matchField l.price with
  | .error e => .error e
  | .ok priceQ =>
    match matchField l.floorPrice with
    | .error e => .error e
    | .ok floorQ =>
      .ok {
        domainName := l.domainName
        price := priceQ.getD 0
        floorPrice := floorQ
        isBelowFloor :=
          match floorQ with
          | some f => if f = 0 then false else decide (priceQ.getD 0 < f)
          | none => false
        listedAt :=
          match l.listedAt with
          | some s => if s = "" then now else s
          | none => now
        metadata := jsSetKey l.metadata "scrapedAt" now }

instance {α β : Type} [DecidableEq α] [DecidableEq β] : DecidableEq (Except α β) := fun a b =>
  match a, b with
  | .ok x, .ok y =>
    if h : x = y then .isTrue (by rw [h]) else .isFalse (by simp [h])
  | .error x, .error y =>
    if h : x = y then .isTrue (by rw [h]) else .isFalse (by simp [h])
  | .ok _, .error _ => .isFalse (by simp)
  | .error _, .ok _ => .isFalse (by simp)

/-- Batch normalization: each listing is normalized inside its own
try/catch, so a listing whose normalization throws is skipped and the
loop continues with the rest. -/
def processListings (now : String) : List RawListing → List NormalizedListing
  | [] => []
  | l :: rest =>
    match normalizeOne now l with
    | .ok n => n :: processListings now rest
    | .error _ => processListings now rest

/-- CSS-like selector set of one marketplace target. -/
structure SelectorSet where
  listings : String
  domainName : String
  price : String
  floorPrice : String
deriving DecidableEq

/-- One candidate marketplace: name, URL and selector set. -/
structure MarketplaceTarget where
  name : String
  url : String
  selectors : SelectorSet
deriving DecidableEq

/-- First hardcoded target (Vision.io) from the handler. -/
def visionTarget : MarketplaceTarget :=
  { name := "Vision.io"
    url := "https://vision.io/marketplace"
    selectors :=
      { listings := ".domain-card, [data-testid=\"domain-card\"], .listing-card, .ens-listing"
        domainName := ".domain-name, [data-testid=\"domain-name\"], .ens-name, h3, h4"
        price := ".price, [data-testid=\"price\"], .eth-price, .listing-price"
        floorPrice := ".floor-price, [data-testid=\"floor-price\"], .floor" } }

/-- Second hardcoded target (ENS Domains) from the handler. -/
def ensDomainsTarget : MarketplaceTarget :=
  { name := "ENS Domains"
    url := "https://ens.domains"
    selectors :=
      { listings := ".domain-item, .ens-item, .card, .listing"
        domainName := ".domain-name, .ens-name, h3, h4, .name"
        price := ".price, .amount, .eth-price"
        floorPrice := ".floor-price, .floor" } }

/-- Third hardcoded target (OpenSea ENS) from the handler. -/
def openSeaTarget : MarketplaceTarget :=
  { name := "OpenSea ENS"
    url := "https://opensea.io/collection/ens"
    selectors :=
      { listings := ".AssetCard, .asset-card, .item-card"
        domainName := ".AssetCard__name, .asset-name, .name"
        price := ".AssetCard__price, .price, .amount"
        floorPrice := ".floor-price, .floor" } }

/-- The ordered hardcoded target list of the handler. -/
def marketplaces : List MarketplaceTarget :=
  [visionTarget, ensDomainsTarget, openSeaTarget]

/-- Payload under `data` in a parsed scrape response. -/
structure VisionData where
  pageTitle : Option String
  listings : Option (List RawListing)
deriving DecidableEq

/-- Parsed scrape response body (`FirecrawlVisionResponse`). -/
structure FirecrawlVisionResponse where
  success : Bool
  data : Option VisionData
  error : Option String
deriving DecidableEq

/-- Optional-chaining access `data.data?.listings`. -/
def respListings (r : FirecrawlVisionResponse) : Option (List RawListing) :=
  match r.data with
  | some d => d.listings
  | none => none

/-- Outcome of the single scrape request issued to one target: an HTTP
error status, a body that is not valid JSON, a parsed body, or a thrown
error (network failure and the like). -/
inductive ScrapeOutcome where
  | httpError (status : Nat) (statusText : String) (body : String)
  | invalidJson (msg : String)
  | parsed (resp : FirecrawlVisionResponse)
  | thrown (msg : String)
deriving DecidableEq

/-- The winner test of the loop: `data.success && data.data?.listings &&
data.data.listings.length > 0`. -/
def isWinner (o : ScrapeOutcome) : Bool :=
  match o with
  | .parsed resp =>
    match resp.success, respListings resp with
    | true, some (_ :: _) => true
    | _, _ => false
  | _ => false

/-- Error message recorded in `lastError` for a failed attempt at one
target; `none` for a parsed response (the zero-listings branch only logs a
warning and leaves `lastError` unchanged). -/
def targetErrMsg (t : MarketplaceTarget) (o : ScrapeOutcome) : Option String :=
  match o with
  | .httpError status statusText _ =>
    some (t.name ++ " failed: " ++ toString status ++ " " ++ statusText)
  | .invalidJson m => some (t.name ++ " returned invalid JSON: " ++ m)
  | .thrown m => some (t.name ++ " error: " ++ m)
  | .parsed _ => none

/-- Update of the `lastError` variable after a non-winning attempt. -/
def nextErr (le : Option String) (t : MarketplaceTarget) (o : ScrapeOutcome) : Option String :=
  match targetErrMsg t o with
  | some m => some m
  | none => le

/-- State left by the fallback loop: the winning target with its raw
listings (if any), the final `lastError`, and the targets that were
actually sent a scrape request, in request order. -/
structure LoopResult where
  winner : Option (MarketplaceTarget × List RawListing)
  lastError : Option String
  attempted : List MarketplaceTarget
deriving DecidableEq

/-- The sequential fallback loop (`for (const marketplace of marketplaces)`):
one request per target in order, `break` on the first target whose parsed
response has `success` true and a non-empty listing array, `continue`
otherwise (recording an error message for HTTP errors, invalid JSON and
thrown errors). -/
def runTargets (net : MarketplaceTarget → ScrapeOutcome) (le : Option String) :
    List MarketplaceTarget → LoopResult
  | [] => ⟨none, le, []⟩
  | t :: ts =>
    match net t with
    | .parsed resp =>
      match resp.success, respListings resp with
      | true, some (x :: xs) => ⟨some (t, x :: xs), le, [t]⟩
      | _, _ =>
        ⟨(runTargets net (nextErr le t (net t)) ts).winner,
         (runTargets net (nextErr le t (net t)) ts).lastError,
         t :: (runTargets net (nextErr le t (net t)) ts).attempted⟩
    | _ =>
      ⟨(runTargets net (nextErr le t (net t)) ts).winner,
       (runTargets net (nextErr le t (net t)) ts).lastError,
       t :: (runTargets net (nextErr le t (net t)) ts).attempted⟩

/-- Outcome of the connectivity probe request (`https://example.com`). -/
inductive ProbeOutcome where
  | httpError (status : Nat) (statusText : String) (body : String)
  | parsed (success : Bool) (error : Option String)
  | thrown (msg : String)
deriving DecidableEq

/-- Result shape of `testFirecrawlConnection`. -/
structure ConnTest where
  success : Bool
  error : Option String
deriving DecidableEq

/-- JavaScript `e || d` on an optional error string (empty string is
falsy). -/
def jsOrDefault (e : Option String) (d : String) : String :=
  match e with
  | some s => if s = "" then d else s
  | none => d

/-- The connectivity probe `testFirecrawlConnection`: fails on an HTTP
error, on a parsed body with `success` false (carrying `data.error ||
'API test failed'`), and on any thrown error; never throws itself. -/
def testFirecrawlConnection : ProbeOutcome → ConnTest
  | .httpError status statusText body =>
    ⟨false, some ("API connection test failed: " ++ toString status ++ " "
      ++ statusText ++ ". Response: " ++ body.take 200)⟩
  | .parsed true _ => ⟨true, none⟩
  | .parsed false e => ⟨false, some (jsOrDefault e "API test failed")⟩
  | .thrown m => ⟨false, some ("Connection test error: " ++ m)⟩

/-- Structured outcome of the `crawlVisionAction` handler: connectivity
failure (probe failed, handler returns false), exhaustion failure (no
target won; carries the final `lastError`, handler returns false), or
success (winning marketplace name, raw listing count, processed
listings; handler returns true). -/
inductive HandlerResult where
  | connectivityFailure (error : Option String)
  | exhaustionFailure (lastError : Option String)
  | success (marketplace : String) (totalListings : Nat) (processed : List NormalizedListing)
deriving DecidableEq

/-- The `crawlVisionAction` handler over an explicit target list: probe
first, then the fallback loop, then either the exhaustion reply or the
success reply with the processed listings.  The second component is the
list of targets that were sent a scrape request, in order. -/
def crawlVisionHandler (probe : ProbeOutcome) (now : String)
    (net : MarketplaceTarget → ScrapeOutcome) (targets : List MarketplaceTarget) :
    HandlerResult × List MarketplaceTarget :=
  if (testFirecrawlConnection probe).success then
    match (runTargets net none targets).winner with
    | some (t, ls) =>
      (.success t.name ls.length (processListings now ls),
        (runTargets net none targets).attempted)
    | none =>
      (.exhaustionFailure (runTargets net none targets).lastError,
        (runTargets net none targets).attempted)
  else
    (.connectivityFailure (testFirecrawlConnection probe).error, [])

/-- Character class `[a-zA-Z0-9-]` of the ENS domain regex. -/
def isEnsChar (c : Char) : Bool :=
  c.isAlpha || c.isDigit || c == '-'

/-- Test whether a character list starts with `.eth`. -/
def dotEth : List Char → Bool
  | a :: b :: c :: d :: _ => a == '.' && b == 'e' && c == 't' && d == 'h'
  | _ => false

/-- First match of the regex `([a-zA-Z0-9-]+\.eth)`: at each start
position, the greedy class run must be followed immediately by `.eth`
(backtracking inside the run cannot help because `.` is outside the
class); on failure the start position advances by one character, exactly
as the regex engine does. -/
def ensFirstMatch : List Char → Option String
  | [] => none
  | c :: rest =>
    if isEnsChar c then
      if dotEth (List.dropWhile isEnsChar (c :: rest)) then
        some (String.mk (List.takeWhile isEnsChar (c :: rest) ++ ['.', 'e', 't', 'h']))
      else ensFirstMatch rest
    else ensFirstMatch rest

/-- JavaScript `toLowerCase` on the ASCII strings produced by the domain
regex, modelled as a character-wise lowering. -/
def jsToLower (s : String) : String :=
  String.mk (s.data.map Char.toLower)

/-- The handler's `message.content?.text || ''`. -/
def ensApiMessageText (text : Option String) : String :=
  match text with
  | some s => s
  | none => ""

/-- Decision taken at the top of the `ensApiAction` handler: either reply
with the usage prompt and return false without any outbound request, or
proceed to the single registry request with the given query variable. -/
inductive EnsHandlerStep where
  | usageReply
  | lookup (name : String)
deriving DecidableEq

/-- Embedding of the `ensApiAction` handler up to its single outbound
request: extract the first `([a-zA-Z0-9-]+\.eth)` match from the message
text and lowercase it for the GraphQL `name` variable; without a match,
reply with the usage prompt. -/
def ensApiStep (text : Option String) : EnsHandlerStep :=
  match ensFirstMatch (ensApiMessageText text).data with
  | none => .usageReply
  | some d => .lookup (jsToLower d)

/-- Number of outbound registry requests issued for a handler decision. -/
def ensRequests : EnsHandlerStep → Nat
  | .usageReply => 0
  | .lookup _ => 1

/-- Early return value of the handler: `some false` when it stops at the
usage prompt, `none` when the outcome depends on the network. -/
def ensEarlyReturn : EnsHandlerStep → Option Bool
  | .usageReply => some false
  | .lookup _ => none

/-- A character list contains a substring matching `[a-zA-Z0-9-]+\.eth`. -/
def hasEnsPattern (l : List Char) : Prop :=
  ∃ pre run post, l = pre ++ run ++ ('.' :: 'e' :: 't' :: 'h' :: post)
    ∧ run ≠ [] ∧ ∀ c ∈ run, isEnsChar c = true

/-! ## Concrete fixtures used in counterexamples and scenario conjuncts -/

/-- Raw listing with an integer price and an integer floor price. -/
def exL1 : RawListing :=
  ⟨"888.eth", .jstr "2 ETH", .jstr "3 ETH", some "2024-01-01T00:00:00Z", []⟩

/-- Raw listing with an integer price and no floor price. -/
def exL2 : RawListing := ⟨"999.eth", .jstr "4 ETH", .jundef, none, []⟩

/-- Two-listing batch returned by the third target in the scenario. -/
def exListings : List RawListing := [exL1, exL2]

/-- Parsed response carrying the two listings. -/
def respEx : FirecrawlVisionResponse :=
  ⟨true, some ⟨some "ENS listings", some exListings⟩, none⟩

/-- A succeeding connectivity probe outcome. -/
def probeOk : ProbeOutcome := .parsed true none

/-- Network where targets 1 and 2 fail at the HTTP level and target 3
returns the two listings. -/
def netEx : MarketplaceTarget → ScrapeOutcome := fun t =>
  if t.name == "OpenSea ENS" then .parsed respEx
  else .httpError 403 "Forbidden" "blocked"

/-- Network where every target returns a successful response with zero
listings. -/
def netEmpty : MarketplaceTarget → ScrapeOutcome := fun _ =>
  .parsed ⟨true, some ⟨none, some []⟩, none⟩

/-- Network with one thrown error, one invalid-JSON body and one HTTP
error. -/
def netMixed : MarketplaceTarget → ScrapeOutcome := fun t =>
  if t.name == "Vision.io" then .thrown "fetch failed"
  else if t.name == "ENS Domains" then .invalidJson "Unexpected token T"
  else .httpError 500 "Internal Server Error" "The page could not be loaded"

/-- Raw listing whose price text has no numeral but whose floor price
parses. -/
def rNoPrice : RawListing := ⟨"abc.eth", .jstr "ETH", .jstr "2 ETH", some "2024-01-01", []⟩

/-- Normalization of `rNoPrice` (price defaults to 0, floor price 2). -/
def nNoPrice : NormalizedListing :=
  ⟨"abc.eth", 0, some 2, true, "2024-01-01", [("scrapedAt", "t0")]⟩

/-- Raw listing with no `listedAt` value. -/
def rNoListed : RawListing := ⟨"def.eth", .jstr "2 ETH", .jundef, none, []⟩

/-- Raw listing with no extractable price and an integer floor price. -/
def rFloored : RawListing := ⟨"flo.eth", .jundef, .jstr "3 ETH", none, []⟩

/-- Normalization of `rFloored` at time `"t"`. -/
def nFloored : NormalizedListing := ⟨"flo.eth", 0, some 3, true, "t", [("scrapedAt", "t")]⟩

/-- Raw listing with a `listedAt` value, used for the idempotence witness. -/
def rListed : RawListing := ⟨"lst.eth", .jundef, .jundef, some "2024-01-01", []⟩

/-- Normalization of `rListed` at time `"A"`. -/
def nListedA : NormalizedListing := ⟨"lst.eth", 0, none, false, "2024-01-01", [("scrapedAt", "A")]⟩

/-- Normalization of `rListed` at time `"B"`. -/
def nListedB : NormalizedListing := ⟨"lst.eth", 0, none, false, "2024-01-01", [("scrapedAt", "B")]⟩

/-- Raw listing whose price field has a non-string dynamic type, so that
normalizing it throws. -/
def rBad : RawListing := ⟨"bad.eth", .jbad, .jundef, none, []⟩

/-- Normalization of `rNoListed` at time `"A"`. -/
def nNoListedA : NormalizedListing := ⟨"def.eth", 2, none, false, "A", [("scrapedAt", "A")]⟩

/-- Normalization of `rNoListed` at time `"B"`. -/
def nNoListedB : NormalizedListing := ⟨"def.eth", 2, none, false, "B", [("scrapedAt", "B")]⟩

/-- Metadata mapping with its `scrapedAt` entry removed (used to compare
normalized records up to the embedded scrape timestamp). -/
def stripScrapedAt (m : List (String × String)) : List (String × String) :=
  m.filter (fun p => p.1 != "scrapedAt")

/-! ## Helper lemmas about the numeric extraction -/

theorem decToRat_nonneg (ip fp : List Char) : 0 ≤ decToRat ip fp := by
  cases fp with
  | nil => simp [decToRat]
  | cons a l =>
    simp only [decToRat]
    positivity

theorem extractLeadingDecimal_nonneg {o : Option String} {q : ℚ}
    (h : extractLeadingDecimal o = some q) : 0 ≤ q := by
  cases o with
  | none => simp [extractLeadingDecimal] at h
  | some s =>
    simp only [extractLeadingDecimal, Option.map_eq_some'] at h
    obtain ⟨⟨ip, fp⟩, _, rfl⟩ := h
    exact decToRat_nonneg ip fp

theorem extractField_nonneg {j : JField} {q : ℚ} (h : extractField j = some q) : 0 ≤ q := by
  cases j with
  | jstr s =>
    simp only [extractField] at h
    exact extractLeadingDecimal_nonneg h
  | jundef => simp [extractField] at h
  | jbad => simp [extractField] at h

theorem extractField_getD_nonneg (j : JField) : 0 ≤ (extractField j).getD 0 := by
  cases hq : extractField j with
  | none => simp
  | some q => simpa using extractField_nonneg hq

theorem firstDecimalMatch_cons_nodigit {c : Char} {rest : List Char}
    (h : c.isDigit = false) :
    firstDecimalMatch (c :: rest) = firstDecimalMatch rest := by
  simp [firstDecimalMatch, h]

theorem firstDecimalMatch_eq_none_iff (l : List Char) :
    firstDecimalMatch l = none ↔ ∀ c ∈ l, c.isDigit = false := by
  induction l with
  | nil => simp [firstDecimalMatch]
  | cons c rest ih =>
    by_cases hd : c.isDigit
    · simp [firstDecimalMatch, hd]
    · have hd' : c.isDigit = false := Bool.eq_false_iff.mpr hd
      rw [firstDecimalMatch_cons_nodigit hd', ih]
      constructor
      · intro h x hx
        rcases List.mem_cons.mp hx with rfl | hx'
        · exact hd'
        · exact h x hx'
      · intro h x hx
        exact h x (List.mem_cons_of_mem c hx)

theorem firstDecimalMatch_append_nodigit (l1 l2 : List Char)
    (h : ∀ c ∈ l1, c.isDigit = false) :
    firstDecimalMatch (l1 ++ l2) = firstDecimalMatch l2 := by
  induction l1 with
  | nil => simp
  | cons c rest ih =>
    have hc : c.isDigit = false := h c (List.mem_cons_self c rest)
    rw [List.cons_append, firstDecimalMatch_cons_nodigit hc]
    exact ih (fun x hx => h x (List.mem_cons_of_mem c hx))

/-! ## Helper lemmas about normalization -/

theorem matchField_ok {j : JField} {q : Option ℚ} (h : matchField j = .ok q) :
    q = extractField j := by
  cases j with
  | jstr s =>
    simp only [matchField] at h
    injection h with h
    simp [extractField, h]
  | jundef =>
    simp only [matchField] at h
    injection h with h
    simp [extractField, h]
  | jbad => simp [matchField] at h

theorem normalizeOne_ok {now : String} {r : RawListing} {n : NormalizedListing}
    (h : normalizeOne now r = .ok n) :
    n = { domainName := r.domainName
          price := (extractField r.price).getD 0
          floorPrice := extractField r.floorPrice
          isBelowFloor :=
            match extractField r.floorPrice with
            | some f => if f = 0 then false else decide ((extractField r.price).getD 0 < f)
            | none => false
          listedAt :=
            match r.listedAt with
            | some s => if s = "" then now else s
            | none => now
          metadata := jsSetKey r.metadata "scrapedAt" now } := by
  cases hp : matchField r.price with
  | error e => simp [normalizeOne, hp] at h
  | ok pq =>
    cases hf : matchField r.floorPrice with
    | error e => simp [normalizeOne, hp, hf] at h
    | ok fq =>
      simp only [normalizeOne, hp, hf] at h
      injection h with h
      rw [← h, matchField_ok hp, matchField_ok hf]

theorem normalizeOne_error_iff (now : String) (r : RawListing) :
    (∃ e, normalizeOne now r = .error e) ↔ r.price = .jbad ∨ r.floorPrice = .jbad := by
  constructor
  · rintro ⟨e, he⟩
    by_contra hc
    push_neg at hc
    obtain ⟨h1, h2⟩ := hc
    cases hp : matchField r.price with
    | error e' =>
      cases hj : r.price <;> simp [matchField, hj] at hp
      exact h1 hj
    | ok pq =>
      cases hf : matchField r.floorPrice with
      | error e' =>
        cases hj : r.floorPrice <;> simp [matchField, hj] at hf
        exact h2 hj
      | ok fq => simp [normalizeOne, hp, hf] at he
  · intro hc
    rcases hc with h1 | h2
    · exact ⟨"TypeError: value has no method match", by simp [normalizeOne, matchField, h1]⟩
    · cases hp : matchField r.price with
      | error e => exact ⟨e, by simp [normalizeOne, hp]⟩
      | ok pq =>
        refine ⟨"TypeError: value has no method match", ?_⟩
        simp only [normalizeOne, hp]
        simp [matchField, h2]

theorem filter_jsSetKey (m : List (String × String)) (k v : String) :
    (jsSetKey m k v).filter (fun p => p.1 != k) = m.filter (fun p => p.1 != k) := by
  induction m with
  | nil => simp [jsSetKey]
  | cons p rest ih =>
    obtain ⟨k', v'⟩ := p
    by_cases hk : k' = k
    · subst hk
      simp [jsSetKey]
    · simp only [jsSetKey, if_neg hk, List.filter_cons]
      by_cases hkeep : (k' != k) = true
      · simp [hkeep, ih]
      · simp at hkeep
        exact absurd hkeep hk

/-! ## Helper lemmas about the fallback loop -/

theorem isWinner_true_elim {o : ScrapeOutcome} (h : isWinner o = true) :
    ∃ resp x xs, o = .parsed resp ∧ resp.success = true ∧ respListings resp = some (x :: xs) := by
  cases o with
  | parsed resp =>
    cases hs : resp.success with
    | false => simp [isWinner, hs] at h
    | true =>
      cases hl : respListings resp with
      | none => simp [isWinner, hs, hl] at h
      | some l =>
        cases l with
        | nil => simp [isWinner, hs, hl] at h
        | cons x xs => exact ⟨resp, x, xs, rfl, hs, hl⟩
  | httpError st sx b => simp [isWinner] at h
  | invalidJson m => simp [isWinner] at h
  | thrown m => simp [isWinner] at h

theorem runTargets_cons_win {net : MarketplaceTarget → ScrapeOutcome} {t : MarketplaceTarget}
    {resp : FirecrawlVisionResponse} {x : RawListing} {xs : List RawListing}
    (hnet : net t = .parsed resp) (hs : resp.success = true)
    (hl : respListings resp = some (x :: xs)) (le : Option String)
    (ts : List MarketplaceTarget) :
    runTargets net le (t :: ts) = ⟨some (t, x :: xs), le, [t]⟩ := by
  simp [runTargets, hnet, hs, hl]

theorem runTargets_cons_skip {net : MarketplaceTarget → ScrapeOutcome} {t : MarketplaceTarget}
    (hw : isWinner (net t) = false) (le : Option String) (ts : List MarketplaceTarget) :
    runTargets net le (t :: ts) =
      ⟨(runTargets net (nextErr le t (net t)) ts).winner,
       (runTargets net (nextErr le t (net t)) ts).lastError,
       t :: (runTargets net (nextErr le t (net t)) ts).attempted⟩ := by
  cases hnet : net t with
  | parsed resp =>
    cases hs : resp.success with
    | true =>
      cases hl : respListings resp with
      | none => simp [runTargets, hnet, hs, hl]
      | some l =>
        cases l with
        | nil => simp [runTargets, hnet, hs, hl]
        | cons x xs =>
          exfalso
          simp [isWinner, hnet, hs, hl] at hw
    | false => simp [runTargets, hnet, hs]
  | httpError st sx b => simp [runTargets, hnet]
  | invalidJson m => simp [runTargets, hnet]
  | thrown m => simp [runTargets, hnet]

theorem runTargets_attempted (net : MarketplaceTarget → ScrapeOutcome)
    (ts : List MarketplaceTarget) : ∀ le,
    (runTargets net le ts).attempted
      = ts.takeWhile (fun u => !(isWinner (net u)))
        ++ (ts.dropWhile (fun u => !(isWinner (net u)))).take 1 := by
  induction ts with
  | nil => intro le; simp [runTargets]
  | cons t ts ih =>
    intro le
    cases hw : isWinner (net t) with
    | false =>
      rw [runTargets_cons_skip hw]
      simp [List.takeWhile_cons, List.dropWhile_cons, hw, ih]
    | true =>
      obtain ⟨resp, x, xs, hnet, hs, hl⟩ := isWinner_true_elim hw
      rw [runTargets_cons_win hnet hs hl]
      simp [List.takeWhile_cons, List.dropWhile_cons, hw]

theorem runTargets_winner_none_iff (net : MarketplaceTarget → ScrapeOutcome)
    (ts : List MarketplaceTarget) : ∀ le,
    ((runTargets net le ts).winner = none ↔ ∀ t ∈ ts, isWinner (net t) = false) := by
  induction ts with
  | nil => intro le; simp [runTargets]
  | cons t ts ih =>
    intro le
    cases hw : isWinner (net t) with
    | false =>
      rw [runTargets_cons_skip hw]
      dsimp only
      constructor
      · intro h u hu
        rcases List.mem_cons.mp hu with rfl | hu'
        · exact hw
        · exact (ih _).mp h u hu'
      · intro h
        exact (ih _).mpr (fun u hu => h u (List.mem_cons_of_mem t hu))
    | true =>
      obtain ⟨resp, x, xs, hnet, hs, hl⟩ := isWinner_true_elim hw
      rw [runTargets_cons_win hnet hs hl]
      dsimp only
      constructor
      · intro h
        exact absurd h (by simp)
      · intro h
        exact absurd (h t (List.mem_cons_self t ts)) (by simp [hw])

theorem runTargets_lastError_none (net : MarketplaceTarget → ScrapeOutcome)
    (ts : List MarketplaceTarget) : ∀ le, (∀ t ∈ ts, isWinner (net t) = false) →
    (runTargets net le ts).lastError = ts.foldl (fun acc u => nextErr acc u (net u)) le := by
  induction ts with
  | nil => intro le _; simp [runTargets]
  | cons t ts ih =>
    intro le h
    have hw : isWinner (net t) = false := h t (List.mem_cons_self t ts)
    rw [runTargets_cons_skip hw]
    dsimp only
    rw [List.foldl_cons]
    exact ih _ (fun u hu => h u (List.mem_cons_of_mem t hu))

theorem runTargets_attempted_none (net : MarketplaceTarget → ScrapeOutcome)
    (ts : List MarketplaceTarget) : ∀ le, (∀ t ∈ ts, isWinner (net t) = false) →
    (runTargets net le ts).attempted = ts := by
  induction ts with
  | nil => intro le _; simp [runTargets]
  | cons t ts ih =>
    intro le h
    have hw : isWinner (net t) = false := h t (List.mem_cons_self t ts)
    rw [runTargets_cons_skip hw]
    dsimp only
    rw [ih _ (fun u hu => h u (List.mem_cons_of_mem t hu))]

theorem dropWhile_head_not {α : Type} {p : α → Bool} :
    ∀ {ts : List α} {t : α} {rest : List α}, ts.dropWhile p = t :: rest → p t = false := by
  intro ts
  induction ts with
  | nil => intro t rest h; simp [List.dropWhile] at h
  | cons a ts ih =>
    intro t rest h
    by_cases ha : p a = true
    · rw [List.dropWhile_cons, if_pos ha] at h
      exact ih h
    · rw [List.dropWhile_cons, if_neg ha] at h
      injection h with h1 _
      subst h1
      exact Bool.eq_false_iff.mpr ha

theorem runTargets_winner_drop (net : MarketplaceTarget → ScrapeOutcome)
    (ts : List MarketplaceTarget) : ∀ le t rest resp l,
    ts.dropWhile (fun u => !(isWinner (net u))) = t :: rest →
    net t = .parsed resp → respListings resp = some l →
    (runTargets net le ts).winner = some (t, l) := by
  induction ts with
  | nil => intro le t rest resp l h _ _; simp [List.dropWhile] at h
  | cons a ts ih =>
    intro le t rest resp l hdrop hnet hl
    cases hw : isWinner (net a) with
    | true =>
      rw [List.dropWhile_cons, if_neg (by simp [hw])] at hdrop
      injection hdrop with h1 h2
      subst h1
      obtain ⟨resp', x, xs, hnet', hs', hl'⟩ := isWinner_true_elim hw
      rw [hnet] at hnet'
      injection hnet' with hr
      subst hr
      have hll : l = x :: xs := Option.some.inj (hl.symm.trans hl')
      subst hll
      rw [runTargets_cons_win hnet hs' hl' le ts]
    | false =>
      rw [List.dropWhile_cons, if_pos (by simp [hw])] at hdrop
      rw [runTargets_cons_skip hw]
      dsimp only
      exact ih _ t rest resp l hdrop hnet hl

theorem runTargets_attempted_sublist (net : MarketplaceTarget → ScrapeOutcome)
    (ts : List MarketplaceTarget) : ∀ le,
    List.Sublist (runTargets net le ts).attempted ts := by
  induction ts with
  | nil => intro le; simp [runTargets]
  | cons t ts ih =>
    intro le
    cases hw : isWinner (net t) with
    | false =>
      rw [runTargets_cons_skip hw]
      dsimp only
      exact List.Sublist.cons₂ t (ih _)
    | true =>
      obtain ⟨resp, x, xs, hnet, hs, hl⟩ := isWinner_true_elim hw
      rw [runTargets_cons_win hnet hs hl]
      dsimp only
      exact List.Sublist.cons₂ t (List.nil_sublist ts)

theorem crawlVision_attempted {probe : ProbeOutcome} {now : String}
    {net : MarketplaceTarget → ScrapeOutcome} {targets : List MarketplaceTarget}
    (h : (testFirecrawlConnection probe).success = true) :
    (crawlVisionHandler probe now net targets).2 = (runTargets net none targets).attempted := by
  unfold crawlVisionHandler
  rw [if_pos h]
  cases hw : (runTargets net none targets).winner with
  | some w =>
    obtain ⟨t, ls⟩ := w
    simp [hw]
  | none => simp [hw]

/-! ## Helper lemmas about the ENS domain regex -/

theorem dotEth_iff (l : List Char) :
    dotEth l = true ↔ ∃ post, l = '.' :: 'e' :: 't' :: 'h' :: post := by
  match l with
  | [] => simp [dotEth]
  | [a] => simp [dotEth]
  | [a, b] => simp [dotEth]
  | [a, b, c] => simp [dotEth]
  | a :: b :: c :: d :: post =>
    simp only [dotEth, Bool.and_eq_true, beq_iff_eq]
    constructor
    · rintro ⟨⟨⟨rfl, rfl⟩, rfl⟩, rfl⟩
      exact ⟨post, rfl⟩
    · rintro ⟨post', heq⟩
      injection heq with h1 heq
      injection heq with h2 heq
      injection heq with h3 heq
      injection heq with h4 _
      exact ⟨⟨⟨h1, h2⟩, h3⟩, h4⟩

theorem mem_takeWhile_sat {α : Type} {p : α → Bool} :
    ∀ {l : List α} {c : α}, c ∈ List.takeWhile p l → p c = true := by
  intro l
  induction l with
  | nil => intro c h; simp [List.takeWhile] at h
  | cons a rest ih =>
    intro c h
    rw [List.takeWhile_cons] at h
    by_cases ha : p a = true
    · rw [if_pos ha] at h
      rcases List.mem_cons.mp h with rfl | h'
      · exact ha
      · exact ih h'
    · rw [if_neg ha] at h
      simp at h

theorem ensFirstMatch_some_pattern :
    ∀ {l : List Char} {w : String}, ensFirstMatch l = some w → hasEnsPattern l := by
  intro l
  induction l with
  | nil => intro w h; simp [ensFirstMatch] at h
  | cons c rest ih =>
    intro w h
    by_cases he : isEnsChar c = true
    · by_cases hd : dotEth (List.dropWhile isEnsChar (c :: rest)) = true
      · obtain ⟨post, hpost⟩ := (dotEth_iff _).mp hd
        refine ⟨[], List.takeWhile isEnsChar (c :: rest), post, ?_, ?_, ?_⟩
        · rw [List.nil_append, ← hpost]
          exact (List.takeWhile_append_dropWhile ..).symm
        · simp [List.takeWhile_cons, he]
        · intro x hx
          exact mem_takeWhile_sat hx
      · have h' : ensFirstMatch rest = some w := by
          simp only [ensFirstMatch] at h
          rw [if_pos he, if_neg hd] at h
          exact h
        obtain ⟨pre, run, post, heq, hne, hall⟩ := ih h'
        exact ⟨c :: pre, run, post, by simp [heq], hne, hall⟩
    · have h' : ensFirstMatch rest = some w := by
        simp only [ensFirstMatch] at h
        rw [if_neg he] at h
        exact h
      obtain ⟨pre, run, post, heq, hne, hall⟩ := ih h'
      exact ⟨c :: pre, run, post, by simp [heq], hne, hall⟩

theorem no_dot_no_pattern {l : List Char} (h : ('.' : Char) ∉ l) : ¬ hasEnsPattern l := by
  rintro ⟨pre, run, post, heq, -, -⟩
  apply h
  rw [heq]
  exact List.mem_append_right (pre ++ run) (List.mem_cons_self '.' _)

/-! ## Claim theorems -/

/-- C1: for every ordered target list (with a succeeding probe), the
fallback loop attempts targets strictly in the given order — the attempted
list is the maximal non-winning prefix followed by the first winner, hence
a prefix of `targets` with at most one request per target — stops at the
first target whose parsed response has `success` true and a non-empty
listing array, returns that target's name as the winner together with the
normalized listings; and in the concrete three-target scenario where
targets 1 and 2 fail at the HTTP level and target 3 returns two listings,
it returns target 3 as winner with exactly two normalized listings after
attempting all three targets once each, in order. -/
theorem crawl_fallback_first_winner (probe : ProbeOutcome) (now : String)
    (net : MarketplaceTarget → ScrapeOutcome) (targets : List MarketplaceTarget)
    (h : (testFirecrawlConnection probe).success = true) :
    ((crawlVisionHandler probe now net targets).2
        = targets.takeWhile (fun u => !(isWinner (net u)))
          ++ (targets.dropWhile (fun u => !(isWinner (net u)))).take 1)
    ∧ (targets.Nodup → ((crawlVisionHandler probe now net targets).2).Nodup)
    ∧ (∀ t rest resp l, targets.dropWhile (fun u => !(isWinner (net u))) = t :: rest →
        net t = .parsed resp → respListings resp = some l →
        (crawlVisionHandler probe now net targets).1
          = .success t.name l.length (processListings now l))
    ∧ crawlVisionHandler probeOk now netEx marketplaces
        = (.success "OpenSea ENS" 2 (processListings now exListings), marketplaces)
    ∧ (processListings now exListings).length = 2 := by
  refine ⟨?_, ?_, ?_, ?_, ?_⟩
  · rw [crawlVision_attempted h, runTargets_attempted]
  · intro hnd
    rw [crawlVision_attempted h]
    exact (runTargets_attempted_sublist net targets none).nodup hnd
  · intro t rest resp l hdrop hnet hl
    have hwin := runTargets_winner_drop net targets none t rest resp l hdrop hnet hl
    unfold crawlVisionHandler
    rw [if_pos h, hwin]
  · have hrun : runTargets netEx none marketplaces
        = ⟨some (openSeaTarget, exListings),
           some "ENS Domains failed: 403 Forbidden", marketplaces⟩ := by decide
    unfold crawlVisionHandler
    rw [if_pos (by decide : (testFirecrawlConnection probeOk).success = true), hrun]
    rfl
  · rfl

theorem crawl_fallback_first_winner_witness :
    (crawlVisionHandler probeOk "t" netEx marketplaces).2
      = marketplaces.takeWhile (fun u => !(isWinner (netEx u)))
        ++ (marketplaces.dropWhile (fun u => !(isWinner (netEx u)))).take 1 :=
  (crawl_fallback_first_winner probeOk "t" netEx marketplaces (by decide)).1

/-- C2 counterexample: on a listing whose price text contains no parseable
number but whose floor price parses to 2, the code normalizes to
`isBelowFloor = true` (the unparseable price defaults to 0 and `0 < 2`),
whereas the claim demands `isBelowFloor = false` whenever the price does
not parse. -/
theorem unparseable_price_below_floor_cex :
    normalizeOne "t0" rNoPrice = .ok nNoPrice
    ∧ nNoPrice.isBelowFloor = true
    ∧ extractLeadingDecimal (some "ETH") = none := by decide

/-- C2 amended: for every raw listing that normalizes without error, the
normalized `isBelowFloor` equals "the floor price parses to `f` and the
extracted price — defaulting to 0 when the price text has no parseable
number — is less than `f`", and is false otherwise.  (The original claim
additionally required the price itself to parse; the counterexample shows
the code instead lets an unparseable price participate as 0.) -/
theorem below_floor_default_price (now : String) (r : RawListing) (n : NormalizedListing)
    (h : normalizeOne now r = .ok n) :
    n.isBelowFloor
      = (match extractField r.floorPrice with
         | some f => decide ((extractField r.price).getD 0 < f)
         | none => false) := by
  rw [normalizeOne_ok h]
  dsimp only
  cases hf : extractField r.floorPrice with
  | none => rfl
  | some f =>
    dsimp only
    by_cases hf0 : f = 0
    · subst hf0
      rw [if_pos rfl]
      have hp := extractField_getD_nonneg r.price
      exact (decide_eq_false (not_lt.mpr hp)).symm
    · rw [if_neg hf0]

theorem below_floor_default_price_witness :
    nFloored.isBelowFloor
      = (match extractField rFloored.floorPrice with
         | some f => decide ((extractField rFloored.price).getD 0 < f)
         | none => false) :=
  below_floor_default_price "t" rFloored nFloored (by decide)

/-- C3: the numeric-extraction rule returns the first contiguous decimal
numeral (optionally with a fractional part) found anywhere in the string —
concretely `"2.5 ETH"` yields `5/2`, a digit-free prefix is skipped — and
returns `none` exactly when no digit occurs in the string or the input is
undefined. -/
theorem extract_leading_decimal_spec :
    extractLeadingDecimal none = none
    ∧ extractLeadingDecimal (some "ETH") = none
    ∧ extractLeadingDecimal (some "2.5 ETH") = some (5 / 2)
    ∧ (∀ s : String, extractLeadingDecimal (some s) = none ↔ ∀ c ∈ s.data, c.isDigit = false)
    ∧ (∀ a b : String, (∀ c ∈ a.data, c.isDigit = false) →
        extractLeadingDecimal (some (a ++ b)) = extractLeadingDecimal (some b)) := by
  refine ⟨rfl, by decide, ?_, ?_, ?_⟩
  · have hm : firstDecimalMatch "2.5 ETH".data = some (['2'], ['5']) := by decide
    have hv : decToRat ['2'] ['5'] = 5 / 2 := by
      have h2 : digitsVal ['2'] = 2 := rfl
      have h5 : digitsVal ['5'] = 5 := rfl
      simp only [decToRat, h2, h5, List.length_cons, List.length_nil]
      norm_num
    simp [extractLeadingDecimal, hm, hv]
  · intro s
    simp only [extractLeadingDecimal]
    rw [Option.map_eq_none']
    exact firstDecimalMatch_eq_none_iff s.data
  · intro a b hnd
    simp only [extractLeadingDecimal]
    rw [String.data_append a b, firstDecimalMatch_append_nodigit a.data b.data hnd]

theorem extract_leading_decimal_spec_witness :
    extractLeadingDecimal (some ("x" ++ "25")) = extractLeadingDecimal (some "25") :=
  extract_leading_decimal_spec.2.2.2.2 "x" "25" (by decide)

/-- C4: whenever the connectivity probe fails (HTTP error, success flag
false, or thrown error — the last three conjuncts show each mode fails the
probe), the handler returns a `connectivityFailure` — a constructor
distinct from the per-target `exhaustionFailure` — and issues zero
per-target scrape requests (the attempted list is empty). -/
theorem connectivity_probe_gate (probe : ProbeOutcome) (now : String)
    (net : MarketplaceTarget → ScrapeOutcome) (targets : List MarketplaceTarget)
    (h : (testFirecrawlConnection probe).success = false) :
    (crawlVisionHandler probe now net targets
        = (.connectivityFailure (testFirecrawlConnection probe).error, []))
    ∧ (∀ e le, HandlerResult.connectivityFailure e ≠ .exhaustionFailure le)
    ∧ (∀ st sx b, (testFirecrawlConnection (.httpError st sx b)).success = false)
    ∧ (∀ e, (testFirecrawlConnection (.parsed false e)).success = false)
    ∧ (∀ m, (testFirecrawlConnection (.thrown m)).success = false) := by
  refine ⟨?_, ?_, ?_, ?_, ?_⟩
  · unfold crawlVisionHandler
    rw [if_neg (by simp [h])]
  · intro e le hc
    exact HandlerResult.noConfusion hc
  · intro st sx b; rfl
  · intro e; rfl
  · intro m; rfl

theorem connectivity_probe_gate_witness :
    crawlVisionHandler (.thrown "boom") "t" netEx marketplaces
      = (.connectivityFailure (testFirecrawlConnection (.thrown "boom")).error, []) :=
  (connectivity_probe_gate (.thrown "boom") "t" netEx marketplaces (by decide)).1

/-- C5: when the probe succeeds but no target wins (every target failed or
returned zero listings), the handler returns an `exhaustionFailure`
carrying the last recorded per-target error (the left fold of the error
updates over the targets, starting from no error), every target is
attempted exactly once in order (attempted = targets, so none is retried),
and concretely with all three targets returning zero listings the result
is an exhaustion failure with no recorded error. -/
theorem exhaustion_last_error (probe : ProbeOutcome) (now : String)
    (net : MarketplaceTarget → ScrapeOutcome) (targets : List MarketplaceTarget)
    (h : (testFirecrawlConnection probe).success = true)
    (hn : ∀ t ∈ targets, isWinner (net t) = false) :
    ((crawlVisionHandler probe now net targets).1
        = .exhaustionFailure (targets.foldl (fun acc u => nextErr acc u (net u)) none))
    ∧ ((crawlVisionHandler probe now net targets).2 = targets)
    ∧ (targets.Nodup → ((crawlVisionHandler probe now net targets).2).Nodup)
    ∧ crawlVisionHandler probeOk now netEmpty marketplaces
        = (.exhaustionFailure none, marketplaces) := by
  have hwn : (runTargets net none targets).winner = none :=
    (runTargets_winner_none_iff net targets none).mpr hn
  refine ⟨?_, ?_, ?_, ?_⟩
  · unfold crawlVisionHandler
    rw [if_pos h, hwn, runTargets_lastError_none net targets none hn]
  · rw [crawlVision_attempted h]
    exact runTargets_attempted_none net targets none hn
  · intro hnd
    rw [crawlVision_attempted h]
    exact (runTargets_attempted_sublist net targets none).nodup hnd
  · have hrun : runTargets netEmpty none marketplaces = ⟨none, none, marketplaces⟩ := by decide
    unfold crawlVisionHandler
    rw [if_pos (by decide : (testFirecrawlConnection probeOk).success = true), hrun]

theorem exhaustion_last_error_witness :
    crawlVisionHandler probeOk "t" netEmpty marketplaces
      = (.exhaustionFailure none, marketplaces) :=
  (exhaustion_last_error probeOk "t" netEmpty marketplaces (by decide) (by decide)).2.2.2

/-- C6: for every raw listing that normalizes without error, the
normalized record satisfies: `isBelowFloor` is true exactly when the
normalized floor price is non-null and the normalized price is below it
(and false otherwise — this matches the code's truthiness test because
extracted prices are never negative, so a zero floor can never exceed the
price), and the normalized price is 0 whenever no numeric token is
extractable from the price field. -/
theorem normalized_below_floor_invariant (now : String) (r : RawListing)
    (n : NormalizedListing) (h : normalizeOne now r = .ok n) :
    (n.isBelowFloor
        = (match n.floorPrice with
           | some f => decide (n.price < f)
           | none => false))
    ∧ (extractField r.price = none → n.price = 0) := by
  constructor
  · rw [normalizeOne_ok h]
    dsimp only
    cases hf : extractField r.floorPrice with
    | none => rfl
    | some f =>
      dsimp only
      by_cases hf0 : f = 0
      · subst hf0
        rw [if_pos rfl]
        have hp := extractField_getD_nonneg r.price
        exact (decide_eq_false (not_lt.mpr hp)).symm
      · rw [if_neg hf0]
  · intro hp
    rw [normalizeOne_ok h]
    dsimp only
    rw [hp]
    rfl

theorem normalized_below_floor_invariant_witness :
    nFloored.isBelowFloor
      = (match nFloored.floorPrice with
         | some f => decide (nFloored.price < f)
         | none => false) :=
  (normalized_below_floor_invariant "t" rFloored nFloored (by decide)).1

/-- C7 counterexample: normalizing a listing with no `listedAt` value at
two different times yields records that differ in the `listedAt` field —
a field other than the embedded scrape timestamp `metadata.scrapedAt` —
so the two normalizations are not bit-identical outside that timestamp. -/
theorem normalize_time_dependent_cex :
    normalizeOne "A" rNoListed = .ok nNoListedA
    ∧ normalizeOne "B" rNoListed = .ok nNoListedB
    ∧ nNoListedA.listedAt ≠ nNoListedB.listedAt := by decide

/-- C7 amended: normalizing the same raw listing twice yields records
identical in every field except the `scrapedAt` entry of the metadata
mapping and — only for listings whose `listedAt` is missing or empty —
the `listedAt` field, which is set to the scrape time; when the listing
carries a non-empty `listedAt`, that field too is identical. -/
theorem normalize_idempotent_mod_timestamps (now1 now2 : String) (r : RawListing)
    (n1 n2 : NormalizedListing)
    (h1 : normalizeOne now1 r = .ok n1) (h2 : normalizeOne now2 r = .ok n2) :
    n1.domainName = n2.domainName
    ∧ n1.price = n2.price
    ∧ n1.floorPrice = n2.floorPrice
    ∧ n1.isBelowFloor = n2.isBelowFloor
    ∧ stripScrapedAt n1.metadata = stripScrapedAt n2.metadata
    ∧ (∀ s, r.listedAt = some s → s ≠ "" → n1.listedAt = n2.listedAt) := by
  rw [normalizeOne_ok h1, normalizeOne_ok h2]
  refine ⟨rfl, rfl, rfl, rfl, ?_, ?_⟩
  · dsimp only
    simp only [stripScrapedAt]
    rw [filter_jsSetKey, filter_jsSetKey]
  · intro s hs hne
    dsimp only
    rw [hs]
    dsimp only
    rw [if_neg hne, if_neg hne]

theorem normalize_idempotent_mod_timestamps_witness :
    stripScrapedAt nListedA.metadata = stripScrapedAt nListedB.metadata :=
  (normalize_idempotent_mod_timestamps "A" "B" rListed nListedA nListedB
    (by decide) (by decide)).2.2.2.2.1

/-- C8: batch normalization never aborts on a malformed listing: the
output is exactly the successfully normalized listings in input order
(the `filterMap` of per-listing normalization), and a listing whose
normalization throws is simply cut out of the batch. -/
theorem process_listings_skip_errors :
    (∀ now ls, processListings now ls
        = ls.filterMap (fun r => (normalizeOne now r).toOption))
    ∧ (∀ now pre bad post e, normalizeOne now bad = .error e →
        processListings now (pre ++ bad :: post)
          = processListings now pre ++ processListings now post) := by
  have h1 : ∀ now ls, processListings now ls
      = ls.filterMap (fun r => (normalizeOne now r).toOption) := by
    intro now ls
    induction ls with
    | nil => rfl
    | cons l rest ih =>
      cases hn : normalizeOne now l with
      | ok n => simp [processListings, hn, List.filterMap_cons, Except.toOption, ih]
      | error e => simp [processListings, hn, List.filterMap_cons, Except.toOption, ih]
  refine ⟨h1, ?_⟩
  intro now pre bad post e he
  rw [h1, h1, h1, List.filterMap_append, List.filterMap_cons]
  simp [he, Except.toOption]

theorem process_listings_skip_errors_witness :
    processListings "t" ([exL1] ++ rBad :: [exL2])
      = processListings "t" [exL1] ++ processListings "t" [exL2] :=
  process_listings_skip_errors.2 "t" [exL1] rBad [exL2]
    "TypeError: value has no method match" (by decide)

/-- C9: no failure inside the routine escapes to the caller: every
execution of the handler yields one of the three structured outcomes; a
target whose request throws leaves the loop's winner unchanged and is
simply recorded in the attempted list before the loop moves on; and
concretely a run whose three targets respectively throw, return invalid
JSON and fail at the HTTP level ends in a structured exhaustion failure
carrying the last error, with all three targets attempted. -/
theorem handler_soft_failure (probe : ProbeOutcome) (now : String)
    (net : MarketplaceTarget → ScrapeOutcome) (targets : List MarketplaceTarget) :
    ((∃ e, (crawlVisionHandler probe now net targets).1 = .connectivityFailure e)
      ∨ (∃ le, (crawlVisionHandler probe now net targets).1 = .exhaustionFailure le)
      ∨ (∃ nm c pl, (crawlVisionHandler probe now net targets).1 = .success nm c pl))
    ∧ (∀ t ts m le, net t = .thrown m →
        (runTargets net le (t :: ts)).winner
            = (runTargets net (some (t.name ++ " error: " ++ m)) ts).winner
        ∧ (runTargets net le (t :: ts)).attempted
            = t :: (runTargets net (some (t.name ++ " error: " ++ m)) ts).attempted)
    ∧ crawlVisionHandler probeOk now netMixed marketplaces
        = (.exhaustionFailure (some "OpenSea ENS failed: 500 Internal Server Error"),
           marketplaces) := by
  refine ⟨?_, ?_, ?_⟩
  · cases ht : (testFirecrawlConnection probe).success with
    | false =>
      left
      refine ⟨(testFirecrawlConnection probe).error, ?_⟩
      unfold crawlVisionHandler
      rw [if_neg (by simp [ht])]
    | true =>
      cases hw : (runTargets net none targets).winner with
      | none =>
        right; left
        refine ⟨(runTargets net none targets).lastError, ?_⟩
        unfold crawlVisionHandler
        rw [if_pos ht, hw]
      | some w =>
        obtain ⟨t, ls⟩ := w
        right; right
        refine ⟨t.name, ls.length, processListings now ls, ?_⟩
        unfold crawlVisionHandler
        rw [if_pos ht, hw]
  · intro t ts m le hnet
    have hw : isWinner (net t) = false := by simp [isWinner, hnet]
    rw [runTargets_cons_skip hw]
    dsimp only
    rw [show nextErr le t (net t) = some (t.name ++ " error: " ++ m) by
      simp [nextErr, targetErrMsg, hnet]]
    exact ⟨rfl, rfl⟩
  · have hrun : runTargets netMixed none marketplaces
        = ⟨none, some "OpenSea ENS failed: 500 Internal Server Error",
           marketplaces⟩ := by decide
    unfold crawlVisionHandler
    rw [if_pos (by decide : (testFirecrawlConnection probeOk).success = true), hrun]

theorem handler_soft_failure_witness :
    crawlVisionHandler probeOk "t" netMixed marketplaces
      = (.exhaustionFailure (some "OpenSea ENS failed: 500 Internal Server Error"),
         marketplaces) :=
  (handler_soft_failure probeOk "t" netMixed marketplaces).2.2

/-- C10: when the message text contains no substring matching
`[a-zA-Z0-9-]+\.eth`, the ENS lookup handler replies with the usage
prompt and returns false without issuing any outbound registry request;
when such a substring exists, the first regex match is lowercased and
used as the query variable of the single request. -/
theorem ens_lookup_gate (text : Option String) :
    (¬ hasEnsPattern (ensApiMessageText text).data →
      ensApiStep text = .usageReply
      ∧ ensRequests (ensApiStep text) = 0
      ∧ ensEarlyReturn (ensApiStep text) = some false)
    ∧ (∀ w, ensFirstMatch (ensApiMessageText text).data = some w →
        ensApiStep text = .lookup (jsToLower w)) := by
  constructor
  · intro hnp
    cases hm : ensFirstMatch (ensApiMessageText text).data with
    | some w => exact absurd (ensFirstMatch_some_pattern hm) hnp
    | none =>
      have hstep : ensApiStep text = .usageReply := by
        simp [ensApiStep, hm]
      exact ⟨hstep, by rw [hstep]; rfl, by rw [hstep]; rfl⟩
  · intro w hm
    simp [ensApiStep, hm]

theorem ens_lookup_gate_witness :
    ensApiStep (some "hello there") = .usageReply
    ∧ ensRequests (ensApiStep (some "hello there")) = 0
    ∧ ensEarlyReturn (ensApiStep (some "hello there")) = some false :=
  (ens_lookup_gate (some "hello there")).1 (no_dot_no_pattern (by decide))
